import Mathlib

/-!
Verification of the assembly pipeline in `cmd/moby/build.go`.

Strings of the Go program are modelled as `List Char` (one `Char` per byte;
all strings involved are ASCII).  Fallible Go code that aborts via
`log.Fatal*` or returns an `error` is modelled with `Except (List Char) α`,
the error value being the message string.
-/

/-! ## Go `strings.Split`

`strings.Split(s, sep)` splits `s` around every non-overlapping instance of
`sep`, scanning left to right; for an empty separator it splits after every
character.  The auxiliary function walks the string one character at a time;
after emitting a piece at a separator match it still has to skip the
remaining `sep.length - 1` characters of the matched separator, which it does
through the `skip` counter (this keeps the recursion structural). -/

def goSplitAux (sep : List Char) : List Char → Nat → List Char → List (List Char)
  | [], _, acc => [acc.reverse]
  | _ :: cs, Nat.succ k, acc => goSplitAux sep cs k acc
  | c :: cs, 0, acc =>
    if sep.isPrefixOf (c :: cs) && !sep.isEmpty then
      acc.reverse :: goSplitAux sep cs (sep.length - 1) []
    else
      goSplitAux sep cs 0 (c :: acc)

/-- Model of Go `strings.Split sep s`. -/
def goSplit (sep s : List Char) : List (List Char) :=
  if sep.isEmpty then s.map (fun c => [c]) else goSplitAux sep s 0 []

/-! ## Trust policy evaluator (`enforceContentTrust`, build.go lines 175-216) -/

/-- `TrustConfig` as used by `enforceContentTrust`: `Image` is the list of
exact image patterns, `Org` the list of organization names. -/
structure TrustConfig where
  Image : List (List Char)
  Org : List (List Char)

/-- The second name-matching check of `enforceContentTrust`:
`imgAndTag := strings.Split(fullImageName, ":")`,
`len(imgAndTag) >= 2 && img == imgAndTag[0]`. -/
def tagStripMatch (img fullImageName : List Char) : Bool :=
  let imgAndTag := goSplit [':'] fullImageName
  decide (2 ≤ imgAndTag.length) && decide (img = imgAndTag.headD [])

/-- The third name-matching check of `enforceContentTrust`:
`imgAndDigest := strings.Split(fullImageName, "@sha256:")`,
`len(imgAndDigest) >= 2 && img == imgAndDigest[0]`. -/
def digestStripMatch (img fullImageName : List Char) : Bool :=
  let imgAndDigest := goSplit ("@sha256:".toList) fullImageName
  decide (2 ≤ imgAndDigest.length) && decide (img = imgAndDigest.headD [])

/-- The loop over `config.Image` in `enforceContentTrust`: exact match,
then tag-stripped match, then digest-stripped match, for each pattern. -/
def imageMatchLoop (fullImageName : List Char) : List (List Char) → Bool
  | [] => false
  | img :: rest =>
    if img = fullImageName then true
    else if tagStripMatch img fullImageName then true
    else if digestStripMatch img fullImageName then true
    else imageMatchLoop fullImageName rest

def libraryC : List Char := "library".toList

/-- The loop over `config.Org` in `enforceContentTrust`.  The `switch` on
`len(splitName)` returns `false` outright for zero segments, uses the
implicit org `"library"` for one segment, the first segment for two and the
second segment otherwise. -/
def orgMatchLoop (fullImageName : List Char) : List (List Char) → Bool
  | [] => false
  | org :: rest =>
    let splitName := goSplit ['/'] fullImageName
    if splitName.length = 0 then false
    else
      let imgOrg : List Char :=
        if splitName.length = 1 then libraryC
        else if splitName.length = 2 then splitName.headD []
        else splitName.getD 1 []
      if imgOrg = org then true else orgMatchLoop fullImageName rest

/-- Model of `enforceContentTrust` (build.go lines 175-216): the image-name
loop, then the organization loop, then `false`. -/
def enforceContentTrust (fullImageName : List Char) (config : TrustConfig) : Bool :=
  imageMatchLoop fullImageName config.Image || orgMatchLoop fullImageName config.Org

/-- Modelled from the spec: the spec's reading of the second name-matching
step, "equality after stripping a trailing `:tag` component (split on the
last `:` that introduces a tag, not a digest)".  The last colon of the
reference is taken as the tag separator only when the text after it contains
no `/` (otherwise it is a registry-port colon) and the text before it does
not end in `@sha256` (otherwise it is a digest colon); when no colon
introduces a tag the reference is returned unchanged. -/
def specStripTag (full : List Char) : List Char :=
  match ((List.enum full).filterMap
      (fun p => if p.2 = ':' then some p.1 else none)).getLast? with
  | none => full
  | some i =>
    let before := full.take i
    let after := full.drop (i + 1)
    if decide ('/' ∈ after) || ("@sha256".toList).isSuffixOf before then full
    else before

/-! ## Tar streams

A tar byte stream is modelled at entry granularity, as the list of entries
it encodes; every operation of the program reads or writes tar streams
through `tar.Reader`/`tar.Writer` except one: `untarKernel` copies the raw
byte content of the `kernel.tar` entry, and `buildInternal` then re-reads
those bytes as a tar stream.  An entry's content is therefore either opaque
bytes (`TarContent.bytes`) or bytes that encode a tar stream
(`TarContent.stream`, carrying the encoded entries).  Of a tar header we
keep the fields the program reads or writes: name, mode, size and type
flag (Go `tar.TypeDir` is the byte `'5'` = 53; headers built without an
explicit type flag carry the zero byte, which tar treats as a regular
file). -/

mutual
inductive TarContent where
  | bytes : List Char → TarContent
  | stream : List TarEntry → TarContent

inductive TarEntry where
  | mk : List Char → Int → Int → Nat → TarContent → TarEntry
end

def tarTypeDir : Nat := 53

def TarEntry.name : TarEntry → List Char
  | .mk n _ _ _ _ => n

def TarEntry.mode : TarEntry → Int
  | .mk _ m _ _ _ => m

def TarEntry.size : TarEntry → Int
  | .mk _ _ s _ _ => s

def TarEntry.typeflag : TarEntry → Nat
  | .mk _ _ _ t _ => t

def TarEntry.content : TarEntry → TarContent
  | .mk _ _ _ _ c => c

/-- The header/content copy performed by `initrdAppend` for one entry: it
writes a header with the same name, mode, size and type flag, followed by
the entry's content byte for byte. -/
def copyEntry (e : TarEntry) : TarEntry :=
  .mk e.name e.mode e.size e.typeflag e.content

/-! ## Kernel splitter (`untarKernel`, build.go lines 318-397) -/

def dupKernelMsg : List Char := "found more than one possible kernel image".toList

def missingKernelMsg : List Char := "did not find kernel in kernel image".toList

def missingKtarMsg : List Char := "did not find kernel.tar in kernel image".toList

/-- The boot fragment `untarKernel` builds when it meets the kernel entry
`e`: the directory `boot` (mode 0700, `tar.TypeDir`), the file
`boot/kernel` copying `e`'s mode, size and content, and the file
`boot/cmdline` (mode 0700) containing the `cmdline` string. -/
def bootFragment (e : TarEntry) (cmdline : List Char) : List TarEntry :=
  [ .mk ("boot".toList) 0o700 0 tarTypeDir (.bytes [])
  , .mk ("boot/kernel".toList) e.mode e.size 0 e.content
  , .mk ("boot/cmdline".toList) 0o700 (cmdline.length : Int) 0 (.bytes cmdline) ]

/-- The entry loop of `untarKernel`.  State: `foundKernel`, the built boot
fragment (`kernel`) and the copied `kernel.tar` content (`ktar`).  A second
kernel-named entry fails immediately with `dupKernelMsg`; at end of stream a
missing kernel fails with `missingKernelMsg`, then a missing `kernel.tar`
with `missingKtarMsg`. -/
def untarKernelLoop (kn kan ktn cmdline : List Char) :
    List TarEntry → Bool → Option (List TarEntry) → Option TarContent →
    Except (List Char) (List TarEntry × TarContent)
  | [], _, kernel, ktar =>
    match kernel with
    | none => .error missingKernelMsg
    | some k =>
      match ktar with
      | none => .error missingKtarMsg
      | some t => .ok (k, t)
  | e :: rest, foundKernel, kernel, ktar =>
    if e.name = kn ∨ e.name = kan then
      if foundKernel then .error dupKernelMsg
      else untarKernelLoop kn kan ktn cmdline rest true (some (bootFragment e cmdline)) ktar
    else if e.name = ktn then
      untarKernelLoop kn kan ktn cmdline rest foundKernel kernel (some e.content)
    else
      untarKernelLoop kn kan ktn cmdline rest foundKernel kernel ktar

/-- Model of `untarKernel` (build.go lines 318-397) on the entries of the
input tar stream. -/
def untarKernel (kn kan ktn cmdline : List Char) (entries : List TarEntry) :
    Except (List Char) (List TarEntry × TarContent) :=
  untarKernelLoop kn kan ktn cmdline entries false none none

/-- Number of entries whose name is the primary or the alternate kernel
name. -/
def kernelCount (kn kan : List Char) (es : List TarEntry) : Nat :=
  es.countP (fun e => decide (e.name = kn ∨ e.name = kan))

/-- Number of entries whose name is the kernel-tar name. -/
def ktarCount (ktn : List Char) (es : List TarEntry) : Nat :=
  es.countP (fun e => decide (e.name = ktn))

/-! ## Build orchestrator (`buildInternal`, build.go lines 220-316)

The configuration structures carry exactly the fields `buildInternal`
reads; their shape follows the spec's data model (§3) since the
configuration parser is outside the given source. -/

/-- A named container entry (`Onboot`/`Services`): `Name` and `Image`. -/
structure MobyImage where
  Name : List Char
  Image : List Char

/-- The kernel entry of the configuration: image reference and boot
command line. -/
structure KernelConfig where
  Image : List Char
  Cmdline : List Char

/-- The build specification consumed by `buildInternal`. -/
structure Moby where
  Kernel : KernelConfig
  Init : List (List Char)
  Onboot : List MobyImage
  Services : List MobyImage
  Trust : TrustConfig

/-- The external collaborators `buildInternal` calls, as response
functions: `dockerPull`, `ImageExtract`, `ConfigToOCI`, `ImageBundle` and
`filesystem`.  Fragments are returned at tar-entry granularity; an OCI
config is opaque bytes. -/
structure Collaborators where
  dockerPull : List Char → Bool → Except (List Char) Unit
  imageExtract : List Char → List Char → Bool → Bool → Except (List Char) (List TarEntry)
  configToOCI : MobyImage → Except (List Char) (List Char)
  imageBundle : List Char → List Char → List Char → Bool → Bool → Except (List Char) (List TarEntry)
  filesystem : Moby → Except (List Char) (List TarEntry)

/-- `initrdAppend` on a fragment already known to be a tar stream: each
entry's header (name, mode, size, type flag) and content are written into
the output unchanged, after everything already appended. -/
def initrdAppendEntries (out frag : List TarEntry) : List TarEntry :=
  out ++ frag.map copyEntry

def tarHeaderErrMsg : List Char := "archive/tar: invalid tar header".toList

/-- `initrdAppend` on a raw byte buffer (the `kernel.tar` passthrough):
bytes that encode a tar stream append its entries; empty bytes are an empty
tar stream (immediate EOF, nothing appended); non-empty bytes that are not
a tar encoding make `tar.Reader.Next` fail, which `initrdAppend` treats as
fatal. -/
def initrdAppendContent (out : List TarEntry) : TarContent → Except (List Char) (List TarEntry)
  | .stream es => .ok (initrdAppendEntries out es)
  | .bytes bs => if bs.isEmpty then .ok out else .error tarHeaderErrMsg

/-- Decimal digit characters of `n`, most significant first (`[]` for 0);
`fuel` bounds the recursion and any `fuel ≥ n` is enough. -/
def natDecimalAux : Nat → Nat → List Char → List Char
  | 0, _, acc => acc
  | _ + 1, 0, acc => acc
  | fuel + 1, n + 1, acc =>
    natDecimalAux fuel ((n + 1) / 10) (Char.ofNat (48 + (n + 1) % 10) :: acc)

/-- Decimal representation of `n` (`"0"` for 0). -/
def natDecimal (n : Nat) : List Char :=
  if n = 0 then ['0'] else natDecimalAux n n []

/-- Model of `fmt.Sprintf("%03d", i)` for `i : Nat`: the decimal digits,
left-padded with `'0'` to width 3. -/
def sprintf03d (i : Nat) : List Char :=
  let ds := natDecimal i
  List.replicate (3 - ds.length) '0' ++ ds

/-- The bundle path of the `i`-th `Onboot` entry:
`"containers/onboot/" + fmt.Sprintf("%03d", i) + "-" + name`. -/
def onbootPath (i : Nat) (name : List Char) : List Char :=
  ("containers/onboot/".toList) ++ sprintf03d i ++ ('-' :: name)

/-- The bundle path of a `Services` entry: `"containers/services/" + name`. -/
def servicePath (name : List Char) : List Char :=
  ("containers/services/".toList) ++ name

def kernelNameC : List Char := "kernel".toList

def kernelAltNameC : List Char := "bzImage".toList

def ktarNameC : List Char := "kernel.tar".toList

/-- The kernel steps of `buildInternal` (build.go lines 224-251): the
pull-policy check and `dockerPull`, then — only for a non-empty kernel
reference — `ImageExtract`, `untarKernel` and the append of the boot
fragment followed by the kernel filesystem tar.  Returns the output
archive's entries so far (starting from empty). -/
def buildKernelPhase (kernel : KernelConfig) (trust : TrustConfig) (pull : Bool)
    (dp : List Char → Bool → Except (List Char) Unit)
    (ext : List Char → List Char → Bool → Bool → Except (List Char) (List TarEntry)) :
    Except (List Char) (List TarEntry) :=
  match (if pull || enforceContentTrust kernel.Image trust then
            dp kernel.Image (enforceContentTrust kernel.Image trust)
         else .ok ()) with
  | .error e => .error e
  | .ok _ =>
    if kernel.Image ≠ [] then
      match ext kernel.Image [] (enforceContentTrust kernel.Image trust) pull with
      | .error e => .error e
      | .ok out =>
        match untarKernel kernelNameC kernelAltNameC ktarNameC kernel.Cmdline out with
        | .error e => .error e
        | .ok (kf, ktar) =>
          initrdAppendContent (initrdAppendEntries [] kf) ktar
    else .ok []

/-- The `Init` loop of `buildInternal` (build.go lines 257-265):
`ImageExtract` each reference and append the fragment. -/
def initLoop (ext : List Char → List Char → Bool → Bool → Except (List Char) (List TarEntry))
    (trust : TrustConfig) (pull : Bool) :
    List (List Char) → List TarEntry → Except (List Char) (List TarEntry)
  | [], out => .ok out
  | ii :: rest, out =>
    match ext ii [] (enforceContentTrust ii trust) pull with
    | .error e => .error e
    | .ok frag => initLoop ext trust pull rest (initrdAppendEntries out frag)

/-- One iteration of the `Onboot` loop (build.go lines 270-284):
`ConfigToOCI`, then `ImageBundle` at the indexed onboot path. -/
def onbootStep (cfg : MobyImage → Except (List Char) (List Char))
    (bundle : List Char → List Char → List Char → Bool → Bool → Except (List Char) (List TarEntry))
    (trust : TrustConfig) (pull : Bool) (i : Nat) (image : MobyImage) :
    Except (List Char) (List TarEntry) :=
  match cfg image with
  | .error e => .error e
  | .ok config =>
    bundle (onbootPath i image.Name) image.Image config
      (enforceContentTrust image.Image trust) pull

/-- The `Onboot` loop of `buildInternal`, with the running list index. -/
def onbootLoop (cfg : MobyImage → Except (List Char) (List Char))
    (bundle : List Char → List Char → List Char → Bool → Bool → Except (List Char) (List TarEntry))
    (trust : TrustConfig) (pull : Bool) :
    Nat → List MobyImage → List TarEntry → Except (List Char) (List TarEntry)
  | _, [], out => .ok out
  | i, image :: rest, out =>
    match onbootStep cfg bundle trust pull i image with
    | .error e => .error e
    | .ok frag => onbootLoop cfg bundle trust pull (i + 1) rest (initrdAppendEntries out frag)

/-- One iteration of the `Services` loop (build.go lines 289-302):
`ConfigToOCI`, then `ImageBundle` at the service path, no index. -/
def serviceStep (cfg : MobyImage → Except (List Char) (List Char))
    (bundle : List Char → List Char → List Char → Bool → Bool → Except (List Char) (List TarEntry))
    (trust : TrustConfig) (pull : Bool) (image : MobyImage) :
    Except (List Char) (List TarEntry) :=
  match cfg image with
  | .error e => .error e
  | .ok config =>
    bundle (servicePath image.Name) image.Image config
      (enforceContentTrust image.Image trust) pull

/-- The `Services` loop of `buildInternal`. -/
def servicesLoop (cfg : MobyImage → Except (List Char) (List Char))
    (bundle : List Char → List Char → List Char → Bool → Bool → Except (List Char) (List TarEntry))
    (trust : TrustConfig) (pull : Bool) :
    List MobyImage → List TarEntry → Except (List Char) (List TarEntry)
  | [], out => .ok out
  | image :: rest, out =>
    match serviceStep cfg bundle trust pull image with
    | .error e => .error e
    | .ok frag => servicesLoop cfg bundle trust pull rest (initrdAppendEntries out frag)

/-- Model of `buildInternal` (build.go lines 220-316): kernel phase, `Init`
loop, `Onboot` loop, `Services` loop, overlay append, then the archive is
closed and its entries returned.  Every `log.Fatal*` abort is an `.error`;
a successful run returns the finalized archive. -/
def buildInternal (m : Moby) (pull : Bool) (c : Collaborators) :
    Except (List Char) (List TarEntry) :=
  match buildKernelPhase m.Kernel m.Trust pull c.dockerPull c.imageExtract with
  | .error e => .error e
  | .ok out0 =>
    match initLoop c.imageExtract m.Trust pull m.Init out0 with
    | .error e => .error e
    | .ok out1 =>
      match onbootLoop c.configToOCI c.imageBundle m.Trust pull 0 m.Onboot out1 with
      | .error e => .error e
      | .ok out2 =>
        match servicesLoop c.configToOCI c.imageBundle m.Trust pull m.Services out2 with
        | .error e => .error e
        | .ok out3 =>
          match c.filesystem m with
          | .error e => .error e
          | .ok overlay => .ok (initrdAppendEntries out3 overlay)

/-- The sequence of `Init` fragments a run extracts, or its first error:
used to state what the `Init` loop appends. -/
def extractAll (ext : List Char → List Char → Bool → Bool → Except (List Char) (List TarEntry))
    (trust : TrustConfig) (pull : Bool) :
    List (List Char) → Except (List Char) (List (List TarEntry))
  | [] => .ok []
  | ii :: rest =>
    match ext ii [] (enforceContentTrust ii trust) pull with
    | .error e => .error e
    | .ok frag =>
      match extractAll ext trust pull rest with
      | .error e => .error e
      | .ok fs => .ok (frag :: fs)

/-- The sequence of `Onboot` fragments a run bundles starting at index `i`,
or its first error. -/
def bundleAllOnboot (cfg : MobyImage → Except (List Char) (List Char))
    (bundle : List Char → List Char → List Char → Bool → Bool → Except (List Char) (List TarEntry))
    (trust : TrustConfig) (pull : Bool) :
    Nat → List MobyImage → Except (List Char) (List (List TarEntry))
  | _, [] => .ok []
  | i, image :: rest =>
    match onbootStep cfg bundle trust pull i image with
    | .error e => .error e
    | .ok frag =>
      match bundleAllOnboot cfg bundle trust pull (i + 1) rest with
      | .error e => .error e
      | .ok fs => .ok (frag :: fs)

/-- The sequence of `Services` fragments a run bundles, or its first
error. -/
def bundleAllServices (cfg : MobyImage → Except (List Char) (List Char))
    (bundle : List Char → List Char → List Char → Bool → Bool → Except (List Char) (List TarEntry))
    (trust : TrustConfig) (pull : Bool) :
    List MobyImage → Except (List Char) (List (List TarEntry))
  | [] => .ok []
  | image :: rest =>
    match serviceStep cfg bundle trust pull image with
    | .error e => .error e
    | .ok frag =>
      match bundleAllServices cfg bundle trust pull rest with
      | .error e => .error e
      | .ok fs => .ok (frag :: fs)

/-! ## Decimal values (statement vocabulary) -/

/-- The number denoted by a list of decimal digit characters (most
significant first). -/
def decValue (ds : List Char) : Nat :=
  ds.foldl (fun a c => 10 * a + (c.toNat - 48)) 0

/-- Specification companion of `natDecimalAux`: the digit characters of
`n`, defined by plain division (proof use only). -/
def digitsOf : Nat → List Char
  | 0 => []
  | n + 1 => digitsOf ((n + 1) / 10) ++ [Char.ofNat (48 + (n + 1) % 10)]
decreasing_by exact Nat.div_lt_self (Nat.succ_pos n) (by norm_num)

/-! ## Concrete instances

Closed configurations, tar entries and collaborator responses used to run
the model on explicit inputs. -/

def cmdlineEx : List Char := "console=ttyS0".toList

def kernelEntryEx : TarEntry := .mk ("kernel".toList) 0o644 1 0 (.bytes ("X".toList))

def rootfsEntryEx : TarEntry := .mk ("rootfs".toList) 0o644 0 0 (.bytes [])

def ktarEntryEx : TarEntry := .mk ("kernel.tar".toList) 0o644 0 0 (.stream [rootfsEntryEx])

def miscEntryEx : TarEntry := .mk ("misc".toList) 0o644 0 0 (.bytes [])

def initFragEx : List TarEntry := [.mk ("sbin/init".toList) 0o755 0 0 (.bytes [])]

def onbootFragEx : List TarEntry :=
  [.mk ("containers/onboot/000-ob".toList) 0o755 0 tarTypeDir (.bytes [])]

def serviceFragEx : List TarEntry :=
  [.mk ("containers/services/sv".toList) 0o755 0 tarTypeDir (.bytes [])]

def overlayFragEx : List TarEntry := [.mk ("etc".toList) 0o755 0 tarTypeDir (.bytes [])]

/-- A build specification with one kernel, one `Init`, one `Onboot` and one
`Services` entry and an empty trust section. -/
def mobyEx : Moby :=
  ⟨⟨"mykernel".toList, cmdlineEx⟩, ["alpine".toList],
   [⟨"ob".toList, "obimg".toList⟩], [⟨"sv".toList, "svimg".toList⟩], ⟨[], []⟩⟩

/-- A kernel-less build specification with empty lists and no trust. -/
def mobyNoKernelEx : Moby := ⟨⟨[], []⟩, [], [], [], ⟨[], []⟩⟩

/-- All-success collaborator responses for `mobyEx`. -/
def collabEx : Collaborators :=
  { dockerPull := fun _ _ => .ok ()
  , imageExtract := fun r _ _ _ =>
      if r = "mykernel".toList then .ok [kernelEntryEx, ktarEntryEx] else .ok initFragEx
  , configToOCI := fun _ => .ok []
  , imageBundle := fun p _ _ _ _ =>
      if p = servicePath ("sv".toList) then .ok serviceFragEx else .ok onbootFragEx
  , filesystem := fun _ => .ok overlayFragEx }

/-- Same responses as `collabEx`, with `dockerPull` written differently but
pointwise equal. -/
def collabEx2 : Collaborators :=
  { collabEx with dockerPull := fun _ v => if v then .ok () else .ok () }

def noConfigMsg : List Char := "no config".toList

/-- Collaborator responses whose `ConfigToOCI` always fails. -/
def collabBadConfig : Collaborators :=
  { collabEx with configToOCI := fun _ => .error noConfigMsg }

def pullFailMsg : List Char := "pull failed".toList

/-- Collaborator responses whose `dockerPull` always fails. -/
def collabPullFail : Collaborators :=
  { collabEx with dockerPull := fun _ _ => .error pullFailMsg }

def extractFailMsg : List Char := "extract failed".toList

/-- Collaborator responses whose `ImageExtract` always fails. -/
def collabExtractFail : Collaborators :=
  { collabEx with imageExtract := fun _ _ _ _ => .error extractFailMsg }

/-- Collaborator responses whose `ImageExtract` succeeds only for the
kernel image, so the `Init` extractions fail. -/
def collabInitFail : Collaborators :=
  { collabEx with imageExtract := fun r _ _ _ =>
      (if r = "mykernel".toList then .ok [kernelEntryEx, ktarEntryEx]
       else .error extractFailMsg) }

def fsFailMsg : List Char := "filesystem failed".toList

/-- Collaborator responses whose overlay `filesystem` call always fails. -/
def collabFsFail : Collaborators :=
  { collabEx with filesystem := fun _ => .error fsFailMsg }

/-! ## Helper lemmas -/

theorem goSplitAux_ne_nil (sep : List Char) :
    ∀ (s : List Char) (k : Nat) (acc : List Char), goSplitAux sep s k acc ≠ [] := by
  intro s
  induction s with
  | nil => intro k acc; cases k <;> simp [goSplitAux]
  | cons c cs ih =>
    intro k acc
    cases k with
    | zero =>
      by_cases h : (sep.isPrefixOf (c :: cs) && !sep.isEmpty) = true
      · simp [goSplitAux, h]
      · simpa [goSplitAux, h] using ih 0 (c :: acc)
    | succ k => simpa [goSplitAux] using ih k acc

/-- For a nonempty separator, `strings.Split` returns at least one piece. -/
theorem goSplit_length_pos (sep s : List Char) (hsep : sep ≠ []) :
    0 < (goSplit sep s).length := by
  have : sep.isEmpty = false := by cases sep <;> simp_all
  rw [goSplit, this]
  simp only [Bool.false_eq_true, if_false]
  have := goSplitAux_ne_nil sep s 0 []
  cases h : goSplitAux sep s 0 [] <;> simp_all

theorem goSplitAux_single_cons (c x : Char) (xs acc : List Char) :
    goSplitAux [c] (x :: xs) 0 acc =
      if x = c then acc.reverse :: goSplitAux [c] xs 0 []
      else goSplitAux [c] xs 0 (x :: acc) := by
  by_cases h : x = c
  · subst h; simp [goSplitAux, List.isPrefixOf]
  · have : (c == x) = false := by simp [BEq.beq]; exact fun hh => h hh.symm
    simp [goSplitAux, List.isPrefixOf, this, h]

theorem goSplitAux_single_headD (c : Char) :
    ∀ (s acc : List Char),
      (goSplitAux [c] s 0 acc).headD [] = acc.reverse ++ s.takeWhile (fun x => x != c) := by
  intro s
  induction s with
  | nil => intro acc; simp [goSplitAux]
  | cons x xs ih =>
    intro acc
    rw [goSplitAux_single_cons]
    by_cases h : x = c
    · subst h; simp [List.takeWhile]
    · have hb : (x != c) = true := by simpa using h
      have hih := ih (x :: acc)
      simp at hih
      simp [h, List.takeWhile, hb, hih]

theorem goSplitAux_single_two_le (c : Char) :
    ∀ (s acc : List Char),
      2 ≤ (goSplitAux [c] s 0 acc).length ↔ c ∈ s := by
  intro s
  induction s with
  | nil => intro acc; simp [goSplitAux]
  | cons x xs ih =>
    intro acc
    rw [goSplitAux_single_cons]
    by_cases h : x = c
    · subst h
      have hpos := goSplit_length_pos [x] xs (by simp)
      rw [goSplit] at hpos
      simp at hpos
      simp
      omega
    · simp [h, ih (x :: acc), Ne.symm h]

theorem goSplit_single_headD (c : Char) (s : List Char) :
    (goSplit [c] s).headD [] = s.takeWhile (fun x => x != c) := by
  rw [goSplit]
  simpa using goSplitAux_single_headD c s []

theorem goSplit_single_two_le (c : Char) (s : List Char) :
    2 ≤ (goSplit [c] s).length ↔ c ∈ s := by
  rw [goSplit]
  simpa using goSplitAux_single_two_le c s []

theorem copyEntry_eq (e : TarEntry) : copyEntry e = e := by
  cases e; rfl

theorem map_copyEntry (l : List TarEntry) : l.map copyEntry = l := by
  have : copyEntry = id := funext copyEntry_eq
  rw [this, List.map_id]

theorem initrdAppendEntries_eq (out frag : List TarEntry) :
    initrdAppendEntries out frag = out ++ frag := by
  rw [initrdAppendEntries, map_copyEntry]


theorem initLoop_ok (ext : List Char → List Char → Bool → Bool → Except (List Char) (List TarEntry))
    (trust : TrustConfig) (pull : Bool) :
    ∀ (l : List (List Char)) (out : List TarEntry) (fs : List (List TarEntry)),
      extractAll ext trust pull l = .ok fs →
      initLoop ext trust pull l out = .ok (out ++ fs.flatten) := by
  intro l
  induction l with
  | nil =>
    intro out fs h
    simp only [extractAll, Except.ok.injEq] at h
    subst h
    simp [initLoop]
  | cons ii rest ih =>
    intro out fs h
    cases hx : ext ii [] (enforceContentTrust ii trust) pull with
    | error e => simp [extractAll, hx] at h
    | ok frag =>
      cases hr : extractAll ext trust pull rest with
      | error e => simp [extractAll, hx, hr] at h
      | ok fs' =>
        simp only [extractAll, hx, hr, Except.ok.injEq] at h
        subst h
        simp only [initLoop, hx]
        rw [initrdAppendEntries_eq, ih (out ++ frag) fs' hr]
        simp

theorem onbootLoop_ok (cfg : MobyImage → Except (List Char) (List Char))
    (bundle : List Char → List Char → List Char → Bool → Bool → Except (List Char) (List TarEntry))
    (trust : TrustConfig) (pull : Bool) :
    ∀ (l : List MobyImage) (i : Nat) (out : List TarEntry) (fs : List (List TarEntry)),
      bundleAllOnboot cfg bundle trust pull i l = .ok fs →
      onbootLoop cfg bundle trust pull i l out = .ok (out ++ fs.flatten) := by
  intro l
  induction l with
  | nil =>
    intro i out fs h
    simp only [bundleAllOnboot, Except.ok.injEq] at h
    subst h
    simp [onbootLoop]
  | cons image rest ih =>
    intro i out fs h
    cases hx : onbootStep cfg bundle trust pull i image with
    | error e => simp [bundleAllOnboot, hx] at h
    | ok frag =>
      cases hr : bundleAllOnboot cfg bundle trust pull (i + 1) rest with
      | error e => simp [bundleAllOnboot, hx, hr] at h
      | ok fs' =>
        simp only [bundleAllOnboot, hx, hr, Except.ok.injEq] at h
        subst h
        simp only [onbootLoop, hx]
        rw [initrdAppendEntries_eq, ih (i + 1) (out ++ frag) fs' hr]
        simp

theorem servicesLoop_ok (cfg : MobyImage → Except (List Char) (List Char))
    (bundle : List Char → List Char → List Char → Bool → Bool → Except (List Char) (List TarEntry))
    (trust : TrustConfig) (pull : Bool) :
    ∀ (l : List MobyImage) (out : List TarEntry) (fs : List (List TarEntry)),
      bundleAllServices cfg bundle trust pull l = .ok fs →
      servicesLoop cfg bundle trust pull l out = .ok (out ++ fs.flatten) := by
  intro l
  induction l with
  | nil =>
    intro out fs h
    simp only [bundleAllServices, Except.ok.injEq] at h
    subst h
    simp [servicesLoop]
  | cons image rest ih =>
    intro out fs h
    cases hx : serviceStep cfg bundle trust pull image with
    | error e => simp [bundleAllServices, hx] at h
    | ok frag =>
      cases hr : bundleAllServices cfg bundle trust pull rest with
      | error e => simp [bundleAllServices, hx, hr] at h
      | ok fs' =>
        simp only [bundleAllServices, hx, hr, Except.ok.injEq] at h
        subst h
        simp only [servicesLoop, hx]
        rw [initrdAppendEntries_eq, ih (out ++ frag) fs' hr]
        simp

theorem untarKernelLoop_dup (kn kan ktn cmdline : List Char) :
    ∀ (es : List TarEntry) (fk : Bool) (kb : Option (List TarEntry)) (kt : Option TarContent),
      untarKernelLoop kn kan ktn cmdline es fk kb kt = .error dupKernelMsg ↔
        2 ≤ kernelCount kn kan es + (if fk then 1 else 0) := by
  intro es
  induction es with
  | nil =>
    intro fk kb kt
    have h1 : missingKernelMsg ≠ dupKernelMsg := by decide
    have h2 : missingKtarMsg ≠ dupKernelMsg := by decide
    cases kb <;> cases kt <;> cases fk <;>
      simp [untarKernelLoop, kernelCount, h1, h2]
  | cons e rest ih =>
    intro fk kb kt
    simp only [untarKernelLoop]
    by_cases hke : e.name = kn ∨ e.name = kan
    · rw [if_pos hke]
      cases fk with
      | true =>
        simp [kernelCount, List.countP_cons, hke]
      | false =>
        simp only [Bool.false_eq_true, if_neg (by simp : ¬False)]
        rw [ih]
        simp [kernelCount, List.countP_cons, hke]
    · rw [if_neg hke]
      by_cases hkt : e.name = ktn
      · rw [if_pos hkt, ih]
        simp [kernelCount, List.countP_cons, hke]
      · rw [if_neg hkt, ih]
        simp [kernelCount, List.countP_cons, hke]

theorem untarKernelLoop_missK (kn kan ktn cmdline : List Char) :
    ∀ (es : List TarEntry) (fk : Bool) (kb : Option (List TarEntry)) (kt : Option TarContent),
      untarKernelLoop kn kan ktn cmdline es fk kb kt = .error missingKernelMsg ↔
        kernelCount kn kan es = 0 ∧ kb = none := by
  intro es
  induction es with
  | nil =>
    intro fk kb kt
    have h1 : missingKtarMsg ≠ missingKernelMsg := by decide
    cases kb <;> cases kt <;>
      simp [untarKernelLoop, kernelCount, h1]
  | cons e rest ih =>
    intro fk kb kt
    simp only [untarKernelLoop]
    by_cases hke : e.name = kn ∨ e.name = kan
    · rw [if_pos hke]
      cases fk with
      | true =>
        have h2 : dupKernelMsg ≠ missingKernelMsg := by decide
        simp [kernelCount, List.countP_cons, hke, h2]
      | false =>
        simp only [Bool.false_eq_true, if_neg (by simp : ¬False)]
        rw [ih]
        simp [kernelCount, List.countP_cons, hke]
    · rw [if_neg hke]
      by_cases hkt : e.name = ktn
      · rw [if_pos hkt, ih]
        simp [kernelCount, List.countP_cons, hke]
      · rw [if_neg hkt, ih]
        simp [kernelCount, List.countP_cons, hke]

theorem untarKernelLoop_missT (kn kan ktn cmdline : List Char)
    (hk : kn ≠ ktn) (hk2 : kan ≠ ktn) :
    ∀ (es : List TarEntry) (fk : Bool) (kb : Option (List TarEntry)) (kt : Option TarContent),
      fk = kb.isSome →
      (untarKernelLoop kn kan ktn cmdline es fk kb kt = .error missingKtarMsg ↔
        kernelCount kn kan es + (if fk then 1 else 0) = 1 ∧
          ktarCount ktn es = 0 ∧ kt = none) := by
  intro es
  induction es with
  | nil =>
    intro fk kb kt hsync
    have h1 : missingKernelMsg ≠ missingKtarMsg := by decide
    cases kb <;> cases kt <;> simp at hsync <;> subst hsync <;>
      simp [untarKernelLoop, kernelCount, ktarCount, h1]
  | cons e rest ih =>
    intro fk kb kt hsync
    simp only [untarKernelLoop]
    by_cases hke : e.name = kn ∨ e.name = kan
    · have hnt : ¬ e.name = ktn := by
        rcases hke with h | h <;> rw [h] <;> assumption
      rw [if_pos hke]
      cases fk with
      | true =>
        have h2 : dupKernelMsg ≠ missingKtarMsg := by decide
        simp [kernelCount, ktarCount, List.countP_cons, hke, h2]
      | false =>
        simp only [Bool.false_eq_true, if_neg (by simp : ¬False)]
        rw [ih true (some (bootFragment e cmdline)) kt rfl]
        simp [kernelCount, ktarCount, List.countP_cons, hke, hnt]
    · rw [if_neg hke]
      by_cases hkt : e.name = ktn
      · rw [if_pos hkt, ih fk kb (some e.content) hsync]
        simp [kernelCount, ktarCount, List.countP_cons, hke, hkt]
      · rw [if_neg hkt, ih fk kb kt hsync]
        simp [kernelCount, ktarCount, List.countP_cons, hke, hkt]

theorem untarKernelLoop_success (kn kan ktn cmdline : List Char)
    (hk : kn ≠ ktn) (hk2 : kan ≠ ktn) :
    ∀ (es : List TarEntry) (fk : Bool) (kb : Option (List TarEntry)) (kt : Option TarContent),
      fk = kb.isSome →
      ((∃ v, untarKernelLoop kn kan ktn cmdline es fk kb kt = .ok v) ↔
        kernelCount kn kan es + (if fk then 1 else 0) = 1 ∧
          (1 ≤ ktarCount ktn es ∨ kt ≠ none)) := by
  intro es
  induction es with
  | nil =>
    intro fk kb kt hsync
    cases kb <;> cases kt <;> simp at hsync <;> subst hsync <;>
      simp [untarKernelLoop, kernelCount, ktarCount]
  | cons e rest ih =>
    intro fk kb kt hsync
    simp only [untarKernelLoop]
    by_cases hke : e.name = kn ∨ e.name = kan
    · have hnt : ¬ e.name = ktn := by
        rcases hke with h | h <;> rw [h] <;> assumption
      rw [if_pos hke]
      cases fk with
      | true =>
        simp [kernelCount, ktarCount, List.countP_cons, hke]
      | false =>
        simp only [Bool.false_eq_true, if_neg (by simp : ¬False)]
        rw [ih true (some (bootFragment e cmdline)) kt rfl]
        simp [kernelCount, ktarCount, List.countP_cons, hke, hnt]
    · rw [if_neg hke]
      by_cases hkt : e.name = ktn
      · rw [if_pos hkt, ih fk kb (some e.content) hsync]
        rw [hkt] at hke
        simp [kernelCount, ktarCount, List.countP_cons, hke, hkt]
      · rw [if_neg hkt, ih fk kb kt hsync]
        simp [kernelCount, ktarCount, List.countP_cons, hke, hkt]

theorem untarKernelLoop_boot (kn kan ktn cmdline : List Char) :
    ∀ (es : List TarEntry) (fk : Bool) (kb : Option (List TarEntry)) (kt : Option TarContent)
      (b : List TarEntry) (t : TarContent),
      untarKernelLoop kn kan ktn cmdline es fk kb kt = .ok (b, t) →
      kb = some b ∨ ∃ e ∈ es, (e.name = kn ∨ e.name = kan) ∧ b = bootFragment e cmdline := by
  intro es
  induction es with
  | nil =>
    intro fk kb kt b t h
    cases kb <;> cases kt <;> simp [untarKernelLoop] at h
    simp [h.1]
  | cons e rest ih =>
    intro fk kb kt b t h
    simp only [untarKernelLoop] at h
    by_cases hke : e.name = kn ∨ e.name = kan
    · rw [if_pos hke] at h
      cases fk with
      | true => simp at h
      | false =>
        simp only [Bool.false_eq_true, if_neg (by simp : ¬False)] at h
        rcases ih true (some (bootFragment e cmdline)) kt b t h with hkb | ⟨e', he', hn, hb⟩
        · right
          exact ⟨e, by simp, hke, by simpa using hkb.symm⟩
        · right
          exact ⟨e', by simp [he'], hn, hb⟩
    · rw [if_neg hke] at h
      by_cases hkt : e.name = ktn
      · rw [if_pos hkt] at h
        rcases ih fk kb (some e.content) b t h with hkb | ⟨e', he', hn, hb⟩
        · left; exact hkb
        · right; exact ⟨e', by simp [he'], hn, hb⟩
      · rw [if_neg hkt] at h
        rcases ih fk kb kt b t h with hkb | ⟨e', he', hn, hb⟩
        · left; exact hkb
        · right; exact ⟨e', by simp [he'], hn, hb⟩

theorem natDecimalAux_eq :
    ∀ (fuel n : Nat) (acc : List Char), n ≤ fuel →
      natDecimalAux fuel n acc = digitsOf n ++ acc := by
  intro fuel
  induction fuel with
  | zero =>
    intro n acc h
    interval_cases n
    simp [natDecimalAux, digitsOf]
  | succ fuel ih =>
    intro n acc h
    cases n with
    | zero => simp [natDecimalAux, digitsOf]
    | succ m =>
      rw [natDecimalAux, ih ((m + 1) / 10) _ (by omega)]
      conv_rhs => rw [digitsOf]
      simp

theorem char_digit_toNat (r : Nat) (h : r < 10) :
    (Char.ofNat (48 + r)).toNat = 48 + r := by
  interval_cases r <;> decide

theorem decValue_digitsOf : ∀ n : Nat, decValue (digitsOf n) = n := by
  intro n
  induction n using Nat.strong_induction_on with
  | _ n ih =>
    cases n with
    | zero => simp [digitsOf, decValue]
    | succ m =>
      rw [digitsOf, decValue, List.foldl_append]
      have hd := char_digit_toNat ((m + 1) % 10) (Nat.mod_lt _ (by norm_num))
      have hv := ih ((m + 1) / 10) (Nat.div_lt_self (Nat.succ_pos m) (by norm_num))
      rw [decValue] at hv
      simp [hv, hd]
      omega

theorem digitsOf_length_le : ∀ (k n : Nat), n < 10 ^ k → (digitsOf n).length ≤ k := by
  intro k
  induction k with
  | zero =>
    intro n h
    interval_cases n
    simp [digitsOf]
  | succ k ih =>
    intro n h
    cases n with
    | zero => simp [digitsOf]
    | succ m =>
      rw [digitsOf]
      have : (m + 1) / 10 < 10 ^ k := by
        rw [Nat.div_lt_iff_lt_mul (by norm_num : 0 < 10)]
        calc m + 1 < 10 ^ (k + 1) := h
        _ = 10 ^ k * 10 := by ring
      simpa using Nat.succ_le_succ (ih _ this)

theorem decValue_replicate_zero (k : Nat) (ds : List Char) :
    decValue (List.replicate k '0' ++ ds) = decValue ds := by
  rw [decValue, List.foldl_append]
  have : List.foldl (fun a c => 10 * a + (c.toNat - 48)) 0 (List.replicate k '0') = 0 := by
    induction k with
    | zero => rfl
    | succ k ihk => simpa [List.replicate_succ] using ihk
  rw [this, decValue]

theorem natDecimal_length_le (i : Nat) (h : i < 1000) : (natDecimal i).length ≤ 3 := by
  rw [natDecimal]
  by_cases h0 : i = 0
  · simp [h0]
  · rw [if_neg h0, natDecimalAux_eq i i [] le_rfl]
    simpa using digitsOf_length_le 3 i (by norm_num [h])

theorem decValue_natDecimal (i : Nat) : decValue (natDecimal i) = i := by
  rw [natDecimal]
  by_cases h0 : i = 0
  · simp [h0, decValue]
  · rw [if_neg h0, natDecimalAux_eq i i [] le_rfl]
    simpa using decValue_digitsOf i

theorem sprintf03d_length (i : Nat) (h : i < 1000) : (sprintf03d i).length = 3 := by
  rw [sprintf03d]
  have h1 : (natDecimal i).length ≤ 3 := natDecimal_length_le i h
  simp
  omega

theorem decValue_sprintf03d (i : Nat) : decValue (sprintf03d i) = i := by
  rw [sprintf03d]
  rw [decValue_replicate_zero, decValue_natDecimal]

/-! ## Claim theorems -/

theorem orgMatchLoop_mem (full v : List Char)
    (hv : ∀ (org : List Char) (rest : List (List Char)),
      orgMatchLoop full (org :: rest) = if v = org then true else orgMatchLoop full rest) :
    ∀ orgs : List (List Char), orgMatchLoop full orgs = true ↔ v ∈ orgs := by
  intro orgs
  induction orgs with
  | nil => simp [orgMatchLoop]
  | cons org rest ih =>
    rw [hv org rest]
    by_cases h : v = org
    · simp [h]
    · simp [h, ih]

/-- C3: the trust evaluator's organization branch derives the organization
from the `/`-split of the reference — zero segments yield no match (that
branch returns false), one segment the implicit organization `library`, two
segments the first segment, three or more the second segment — and the
branch returns true exactly when the derived organization equals some
`OrgMatches` entry. -/
theorem orgMatchLoop_characterization (full : List Char) (orgs : List (List Char)) :
    orgMatchLoop full orgs = true ↔
      ∃ o ∈ orgs,
        ((goSplit ['/'] full).length = 1 ∧ o = libraryC) ∨
        ((goSplit ['/'] full).length = 2 ∧ (goSplit ['/'] full).head? = some o) ∨
        (3 ≤ (goSplit ['/'] full).length ∧ (goSplit ['/'] full).get? 1 = some o) := by
  rcases hsp : goSplit ['/'] full with _ | ⟨a, _ | ⟨b, _ | ⟨c, tl⟩⟩⟩
  · cases orgs with
    | nil => simp [orgMatchLoop]
    | cons org rest => simp [orgMatchLoop, hsp]
  · rw [orgMatchLoop_mem full libraryC (fun org rest => by simp [orgMatchLoop, hsp]) orgs]
    simp [hsp]
  · rw [orgMatchLoop_mem full a (fun org rest => by simp [orgMatchLoop, hsp]) orgs]
    simp [hsp]
  · rw [orgMatchLoop_mem full b (fun org rest => by simp [orgMatchLoop, hsp]) orgs]
    simp [hsp]

/-- C10: splitting any string on `/` yields at least one segment, so the
zero-segment branch of the organization check is unreachable, and the empty
image reference is treated as a bare one-segment name with implicit
organization `library`: whenever `OrgMatches` contains `library` the trust
evaluator accepts the empty reference. -/
theorem trust_empty_reference :
    (∀ s : List Char, 0 < (goSplit ['/'] s).length) ∧
    (∀ cfg : TrustConfig, libraryC ∈ cfg.Org → enforceContentTrust [] cfg = true) := by
  constructor
  · intro s
    exact goSplit_length_pos ['/'] s (by simp)
  · intro cfg hmem
    rw [enforceContentTrust]
    have : orgMatchLoop [] cfg.Org = true := by
      rw [orgMatchLoop_mem [] libraryC
        (fun org rest => by simp [orgMatchLoop, goSplit, goSplitAux]) cfg.Org]
      exact hmem
    simp [this]

/-- C10 witness: a run of the zero-segment-unreachable fact and of the
evaluator on the empty reference with `OrgMatches = {library}`. -/
theorem trust_empty_reference_run :
    0 < (goSplit ['/'] ("linuxkit/kernel".toList)).length ∧
    enforceContentTrust [] ⟨[], [libraryC]⟩ = true :=
  ⟨trust_empty_reference.1 ("linuxkit/kernel".toList),
   trust_empty_reference.2 ⟨[], [libraryC]⟩ (by simp)⟩

/-- C2 counterexample: the code's second name-matching step splits on the
first colon, not on the last tag-introducing colon: for the reference
`localhost:5000/nginx:1.19` and the pattern `localhost:5000/nginx` the
pattern equals the reference with its trailing `:1.19` tag stripped, yet
the step rejects it, refuting the claimed equivalence at this input. -/
theorem tagStripMatch_spec_cex :
    tagStripMatch ("localhost:5000/nginx".toList) ("localhost:5000/nginx:1.19".toList) = false
    ∧ specStripTag ("localhost:5000/nginx:1.19".toList) = "localhost:5000/nginx".toList
    ∧ ¬ (tagStripMatch ("localhost:5000/nginx".toList)
          ("localhost:5000/nginx:1.19".toList) = true ↔
        ("localhost:5000/nginx".toList)
          = specStripTag ("localhost:5000/nginx:1.19".toList)) := by
  decide

/-- C2 (amended): the second name-matching step succeeds exactly when the
reference contains at least one `:` and the `ImageMatches` entry equals the
substring before the first `:` — the split is on the first colon whether it
belongs to a tag, a registry port or a digest. -/
theorem tagStripMatch_first_colon (img full : List Char) :
    tagStripMatch img full = true ↔
      ':' ∈ full ∧ img = full.takeWhile (fun c => c != ':') := by
  rw [tagStripMatch]
  simp only [Bool.and_eq_true, decide_eq_true_eq]
  rw [goSplit_single_two_le, goSplit_single_headD]

/-- C4: classification of the kernel splitter's outcomes — duplicate-kernel
error exactly when two or more entries carry a kernel name, missing-kernel
error exactly when none does, missing-filesystem-tar error exactly when
there is one kernel entry but no kernel-tar entry, and success exactly when
there is one kernel entry and at least one kernel-tar entry; entries with
other names never influence the outcome classification. -/
theorem untarKernel_error_classification (kn kan ktn cmdline : List Char) (es : List TarEntry)
    (h1 : kn ≠ ktn) (h2 : kan ≠ ktn) :
    (untarKernel kn kan ktn cmdline es = .error dupKernelMsg ↔ 2 ≤ kernelCount kn kan es) ∧
    (untarKernel kn kan ktn cmdline es = .error missingKernelMsg ↔ kernelCount kn kan es = 0) ∧
    (untarKernel kn kan ktn cmdline es = .error missingKtarMsg ↔
      kernelCount kn kan es = 1 ∧ ktarCount ktn es = 0) ∧
    ((∃ v, untarKernel kn kan ktn cmdline es = .ok v) ↔
      kernelCount kn kan es = 1 ∧ 1 ≤ ktarCount ktn es) := by
  refine ⟨?_, ?_, ?_, ?_⟩
  · rw [untarKernel, untarKernelLoop_dup]
    simp
  · rw [untarKernel, untarKernelLoop_missK]
    simp
  · rw [untarKernel, untarKernelLoop_missT kn kan ktn cmdline h1 h2 es false none none rfl]
    simp
  · rw [untarKernel, untarKernelLoop_success kn kan ktn cmdline h1 h2 es false none none rfl]
    simp

/-- C4 witness: the classification at the concrete kernel names of the
build and a concrete two-entry input stream. -/
theorem untarKernel_error_classification_run :
    (untarKernel kernelNameC kernelAltNameC ktarNameC cmdlineEx [kernelEntryEx, ktarEntryEx]
        = .error dupKernelMsg ↔
      2 ≤ kernelCount kernelNameC kernelAltNameC [kernelEntryEx, ktarEntryEx]) ∧
    (untarKernel kernelNameC kernelAltNameC ktarNameC cmdlineEx [kernelEntryEx, ktarEntryEx]
        = .error missingKernelMsg ↔
      kernelCount kernelNameC kernelAltNameC [kernelEntryEx, ktarEntryEx] = 0) ∧
    (untarKernel kernelNameC kernelAltNameC ktarNameC cmdlineEx [kernelEntryEx, ktarEntryEx]
        = .error missingKtarMsg ↔
      kernelCount kernelNameC kernelAltNameC [kernelEntryEx, ktarEntryEx] = 1 ∧
        ktarCount ktarNameC [kernelEntryEx, ktarEntryEx] = 0) ∧
    ((∃ v, untarKernel kernelNameC kernelAltNameC ktarNameC cmdlineEx
        [kernelEntryEx, ktarEntryEx] = .ok v) ↔
      kernelCount kernelNameC kernelAltNameC [kernelEntryEx, ktarEntryEx] = 1 ∧
        1 ≤ ktarCount ktarNameC [kernelEntryEx, ktarEntryEx]) :=
  untarKernel_error_classification kernelNameC kernelAltNameC ktarNameC cmdlineEx
    [kernelEntryEx, ktarEntryEx] (by decide) (by decide)

/-- C5: on every successful run of the kernel splitter the produced boot
fragment consists of exactly three entries in order: the directory `boot`
with owner-only mode 0700 and directory type flag, the file `boot/kernel`
with the kernel entry's mode, size and content verbatim, and the file
`boot/cmdline` whose content is exactly the cmdline string. -/
theorem untarKernel_boot_entries (kn kan ktn cmdline : List Char) (es : List TarEntry)
    (b : List TarEntry) (t : TarContent)
    (h : untarKernel kn kan ktn cmdline es = .ok (b, t)) :
    ∃ e ∈ es, (e.name = kn ∨ e.name = kan) ∧
      b = [ .mk ("boot".toList) 0o700 0 tarTypeDir (.bytes [])
          , .mk ("boot/kernel".toList) e.mode e.size 0 e.content
          , .mk ("boot/cmdline".toList) 0o700 (cmdline.length : Int) 0 (.bytes cmdline) ] := by
  rcases untarKernelLoop_boot kn kan ktn cmdline es false none none b t h
    with hkb | ⟨e, he, hn, hb⟩
  · simp at hkb
  · exact ⟨e, he, hn, hb⟩

/-- C5 witness: a successful run on a concrete three-entry stream whose
kernel entry has mode 0644, size 1 and content `X`. -/
theorem untarKernel_boot_entries_run :
    ∃ e ∈ ([miscEntryEx, kernelEntryEx, ktarEntryEx] : List TarEntry),
      (e.name = kernelNameC ∨ e.name = kernelAltNameC) ∧
      bootFragment kernelEntryEx cmdlineEx =
        [ .mk ("boot".toList) 0o700 0 tarTypeDir (.bytes [])
        , .mk ("boot/kernel".toList) e.mode e.size 0 e.content
        , .mk ("boot/cmdline".toList) 0o700 (cmdlineEx.length : Int) 0 (.bytes cmdlineEx) ] :=
  untarKernel_boot_entries kernelNameC kernelAltNameC ktarNameC cmdlineEx
    [miscEntryEx, kernelEntryEx, ktarEntryEx] (bootFragment kernelEntryEx cmdlineEx)
    (.stream [rootfsEntryEx]) rfl

/-- C6: the `i`-th `Onboot` entry (from 0) is bundled at
`containers/onboot/` followed by a 3-digit zero-padded decimal rendering of
`i`, a hyphen and the entry's name — the first entry gets `000` — while a
`Services` entry is bundled at `containers/services/` followed by its name
with no index. -/
theorem onboot_service_paths (i : Nat) (name : List Char) (h : i < 1000) :
    (∃ ds, onbootPath i name = ("containers/onboot/".toList) ++ ds ++ ('-' :: name) ∧
      ds.length = 3 ∧ decValue ds = i) ∧
    servicePath name = ("containers/services/".toList) ++ name ∧
    onbootPath 0 name = ("containers/onboot/000-".toList) ++ name := by
  exact ⟨⟨sprintf03d i, rfl, sprintf03d_length i h, decValue_sprintf03d i⟩, rfl, rfl⟩

/-- C6 witness: the paths for index 7 and name `ob`. -/
theorem onboot_service_paths_run :
    (∃ ds, onbootPath 7 ("ob".toList) = ("containers/onboot/".toList) ++ ds ++ ('-' :: "ob".toList) ∧
      ds.length = 3 ∧ decValue ds = 7) ∧
    servicePath ("ob".toList) = ("containers/services/".toList) ++ "ob".toList ∧
    onbootPath 0 ("ob".toList) = ("containers/onboot/000-".toList) ++ "ob".toList :=
  onboot_service_paths 7 ("ob".toList) (by norm_num)

/-- C1: on an all-successful run with a kernel image, the finalized archive
is exactly the concatenation, in order, of the boot fragment, the kernel
filesystem tar's entries, the `Init` fragments in list order, the `Onboot`
fragments in list order, the `Services` fragments in list order, and the
overlay fragment, each entry kept verbatim. -/
theorem buildInternal_append_order (m : Moby) (pull : Bool) (c : Collaborators)
    (kentries bootF ktarEs : List TarEntry)
    (initFrags obFrags svcFrags : List (List TarEntry)) (ovl : List TarEntry)
    (hkimg : m.Kernel.Image ≠ [])
    (hpull : ∀ v, c.dockerPull m.Kernel.Image v = .ok ())
    (hext : c.imageExtract m.Kernel.Image []
      (enforceContentTrust m.Kernel.Image m.Trust) pull = .ok kentries)
    (hun : untarKernel kernelNameC kernelAltNameC ktarNameC m.Kernel.Cmdline kentries
      = .ok (bootF, .stream ktarEs))
    (hinit : extractAll c.imageExtract m.Trust pull m.Init = .ok initFrags)
    (hob : bundleAllOnboot c.configToOCI c.imageBundle m.Trust pull 0 m.Onboot = .ok obFrags)
    (hsvc : bundleAllServices c.configToOCI c.imageBundle m.Trust pull m.Services = .ok svcFrags)
    (hfs : c.filesystem m = .ok ovl) :
    buildInternal m pull c =
      .ok (bootF ++ ktarEs ++ initFrags.flatten ++ obFrags.flatten ++ svcFrags.flatten ++ ovl) := by
  have hp : (if pull || enforceContentTrust m.Kernel.Image m.Trust then
      c.dockerPull m.Kernel.Image (enforceContentTrust m.Kernel.Image m.Trust)
      else .ok ()) = .ok () := by
    by_cases hc : (pull || enforceContentTrust m.Kernel.Image m.Trust) = true
    · rw [if_pos hc]
      exact hpull _
    · rw [if_neg hc]
  have hkp : buildKernelPhase m.Kernel m.Trust pull c.dockerPull c.imageExtract
      = .ok (bootF ++ ktarEs) := by
    rw [buildKernelPhase, hp]
    simp only [hext, hun, if_pos hkimg]
    rw [initrdAppendContent, initrdAppendEntries_eq, initrdAppendEntries_eq]
    simp
  rw [buildInternal, hkp]
  simp only [initLoop_ok c.imageExtract m.Trust pull m.Init (bootF ++ ktarEs) initFrags hinit]
  simp only [onbootLoop_ok c.configToOCI c.imageBundle m.Trust pull m.Onboot 0
    (bootF ++ ktarEs ++ initFrags.flatten) obFrags hob]
  simp only [servicesLoop_ok c.configToOCI c.imageBundle m.Trust pull m.Services
    (bootF ++ ktarEs ++ initFrags.flatten ++ obFrags.flatten) svcFrags hsvc]
  simp only [hfs]
  rw [initrdAppendEntries_eq]

/-- C1 witness: a full concrete run of the pipeline, producing exactly the
fragments' entries in order. -/
theorem buildInternal_append_order_run :
    buildInternal mobyEx true collabEx =
      .ok (bootFragment kernelEntryEx cmdlineEx ++ [rootfsEntryEx] ++
        List.flatten [initFragEx] ++ List.flatten [onbootFragEx] ++
        List.flatten [serviceFragEx] ++ overlayFragEx) :=
  buildInternal_append_order mobyEx true collabEx [kernelEntryEx, ktarEntryEx]
    (bootFragment kernelEntryEx cmdlineEx) [rootfsEntryEx] [initFragEx] [onbootFragEx]
    [serviceFragEx] overlayFragEx (by decide) (fun _ => rfl) rfl rfl rfl rfl rfl rfl

/-- C7: the pipeline is a deterministic function of the build specification,
the pull flag and the collaborator responses — two runs with pointwise
identical collaborator responses produce identical results. -/
theorem buildInternal_deterministic (m : Moby) (pull : Bool) (c₁ c₂ : Collaborators)
    (h1 : ∀ a b, c₁.dockerPull a b = c₂.dockerPull a b)
    (h2 : ∀ a b d e, c₁.imageExtract a b d e = c₂.imageExtract a b d e)
    (h3 : ∀ a, c₁.configToOCI a = c₂.configToOCI a)
    (h4 : ∀ a b d e f, c₁.imageBundle a b d e f = c₂.imageBundle a b d e f)
    (h5 : ∀ a, c₁.filesystem a = c₂.filesystem a) :
    buildInternal m pull c₁ = buildInternal m pull c₂ := by
  obtain ⟨d1, e1, o1, b1, f1⟩ := c₁
  obtain ⟨d2, e2, o2, b2, f2⟩ := c₂
  have hd : d1 = d2 := funext fun a => funext fun b => h1 a b
  have he : e1 = e2 := funext fun a => funext fun b => funext fun d => funext fun e => h2 a b d e
  have ho : o1 = o2 := funext fun a => h3 a
  have hb : b1 = b2 :=
    funext fun a => funext fun b => funext fun d => funext fun e => funext fun f => h4 a b d e f
  have hf : f1 = f2 := funext fun a => h5 a
  subst hd he ho hb hf
  rfl

/-- C7 witness: two runs against collaborators written differently but with
pointwise identical responses. -/
theorem buildInternal_deterministic_run :
    buildInternal mobyEx true collabEx = buildInternal mobyEx true collabEx2 :=
  buildInternal_deterministic mobyEx true collabEx collabEx2
    (fun a b => by cases b <;> rfl) (fun _ _ _ _ => rfl) (fun _ => rfl)
    (fun _ _ _ _ _ => rfl) (fun _ => rfl)


theorem initLoop_stuck (ext : List Char → List Char → Bool → Bool → Except (List Char) (List TarEntry))
    (tr : TrustConfig) (pull : Bool) (bad : List Char) (err : List Char) (rest : List (List Char)) :
    ∀ (pre : List (List Char)) (fs : List (List TarEntry)) (out : List TarEntry),
      extractAll ext tr pull pre = .ok fs →
      ext bad [] (enforceContentTrust bad tr) pull = .error err →
      initLoop ext tr pull (pre ++ bad :: rest) out = .error err := by
  intro pre
  induction pre with
  | nil =>
    intro fs out hpre hbad
    simp [initLoop, hbad]
  | cons p pre ih =>
    intro fs out hpre hbad
    cases hx : ext p [] (enforceContentTrust p tr) pull with
    | error e => simp [extractAll, hx] at hpre
    | ok frag =>
      cases hr : extractAll ext tr pull pre with
      | error e => simp [extractAll, hx, hr] at hpre
      | ok fs' =>
        simp only [List.cons_append, initLoop, hx]
        exact ih fs' (initrdAppendEntries out frag) hr hbad

theorem onbootLoop_stuckAt (cfg : MobyImage → Except (List Char) (List Char))
    (bnd : List Char → List Char → List Char → Bool → Bool → Except (List Char) (List TarEntry))
    (tr : TrustConfig) (pull : Bool) (bad : MobyImage) (err : List Char) (rest : List MobyImage) :
    ∀ (pre : List MobyImage) (i : Nat) (gs : List (List TarEntry)) (out : List TarEntry),
      bundleAllOnboot cfg bnd tr pull i pre = .ok gs →
      onbootStep cfg bnd tr pull (i + pre.length) bad = .error err →
      onbootLoop cfg bnd tr pull i (pre ++ bad :: rest) out = .error err := by
  intro pre
  induction pre with
  | nil =>
    intro i gs out hpre hbad
    simp at hbad
    simp [onbootLoop, hbad]
  | cons p pre ih =>
    intro i gs out hpre hbad
    cases hx : onbootStep cfg bnd tr pull i p with
    | error e => simp [bundleAllOnboot, hx] at hpre
    | ok frag =>
      cases hr : bundleAllOnboot cfg bnd tr pull (i + 1) pre with
      | error e => simp [bundleAllOnboot, hx, hr] at hpre
      | ok gs' =>
        have hbad' : onbootStep cfg bnd tr pull ((i + 1) + pre.length) bad = .error err := by
          rw [show (i + 1) + pre.length = i + (p :: pre).length by simp; omega]
          exact hbad
        simp only [List.cons_append, onbootLoop, hx]
        exact ih (i + 1) gs' (initrdAppendEntries out frag) hr hbad'

theorem servicesLoop_stuckAt (cfg : MobyImage → Except (List Char) (List Char))
    (bnd : List Char → List Char → List Char → Bool → Bool → Except (List Char) (List TarEntry))
    (tr : TrustConfig) (pull : Bool) (bad : MobyImage) (err : List Char) (rest : List MobyImage) :
    ∀ (pre : List MobyImage) (hs : List (List TarEntry)) (out : List TarEntry),
      bundleAllServices cfg bnd tr pull pre = .ok hs →
      serviceStep cfg bnd tr pull bad = .error err →
      servicesLoop cfg bnd tr pull (pre ++ bad :: rest) out = .error err := by
  intro pre
  induction pre with
  | nil =>
    intro hs out hpre hbad
    simp [servicesLoop, hbad]
  | cons p pre ih =>
    intro hs out hpre hbad
    cases hx : serviceStep cfg bnd tr pull p with
    | error e => simp [bundleAllServices, hx] at hpre
    | ok frag =>
      cases hr : bundleAllServices cfg bnd tr pull pre with
      | error e => simp [bundleAllServices, hx, hr] at hpre
      | ok hs' =>
        simp only [List.cons_append, servicesLoop, hx]
        exact ih hs' (initrdAppendEntries out frag) hr hbad

/-- C8: the build aborts on the first failing call at every step of the
pipeline.  Since the model's collaborators are total response functions, a
failure "at step S" is stated as: every call before S succeeds and the call
at S returns `err`; the conclusion is then that the whole build returns
exactly that error — the archive is never finalized, no usable output is
produced — for every choice of the data only used after S.  The seven
conjuncts cover, in pipeline order: the kernel pull, the kernel image
extraction, the kernel splitter, an `Init` extraction after any successful
prefix, an `Onboot` step after any successful prefix (for arbitrary later
`Onboot` entries and `Services`), a `Services` step after any successful
prefix (for arbitrary later `Services` entries), and the overlay call. -/
theorem buildInternal_first_error_wins (k : KernelConfig) (tr : TrustConfig) (pull : Bool)
    (c : Collaborators) (err : List Char) :
    (∀ li ob svc, (pull = true ∨ enforceContentTrust k.Image tr = true) →
      c.dockerPull k.Image (enforceContentTrust k.Image tr) = .error err →
      buildInternal ⟨k, li, ob, svc, tr⟩ pull c = .error err) ∧
    (∀ li ob svc,
      (if pull || enforceContentTrust k.Image tr then
        c.dockerPull k.Image (enforceContentTrust k.Image tr) else .ok ()) = .ok () →
      k.Image ≠ [] →
      c.imageExtract k.Image [] (enforceContentTrust k.Image tr) pull = .error err →
      buildInternal ⟨k, li, ob, svc, tr⟩ pull c = .error err) ∧
    (∀ li ob svc kentries,
      (if pull || enforceContentTrust k.Image tr then
        c.dockerPull k.Image (enforceContentTrust k.Image tr) else .ok ()) = .ok () →
      k.Image ≠ [] →
      c.imageExtract k.Image [] (enforceContentTrust k.Image tr) pull = .ok kentries →
      untarKernel kernelNameC kernelAltNameC ktarNameC k.Cmdline kentries = .error err →
      buildInternal ⟨k, li, ob, svc, tr⟩ pull c = .error err) ∧
    (∀ pre bad rest ob svc out0 fs,
      buildKernelPhase k tr pull c.dockerPull c.imageExtract = .ok out0 →
      extractAll c.imageExtract tr pull pre = .ok fs →
      c.imageExtract bad [] (enforceContentTrust bad tr) pull = .error err →
      buildInternal ⟨k, pre ++ bad :: rest, ob, svc, tr⟩ pull c = .error err) ∧
    (∀ li pre bad rest svc out0 fs gs,
      buildKernelPhase k tr pull c.dockerPull c.imageExtract = .ok out0 →
      extractAll c.imageExtract tr pull li = .ok fs →
      bundleAllOnboot c.configToOCI c.imageBundle tr pull 0 pre = .ok gs →
      onbootStep c.configToOCI c.imageBundle tr pull pre.length bad = .error err →
      buildInternal ⟨k, li, pre ++ bad :: rest, svc, tr⟩ pull c = .error err) ∧
    (∀ li ob pre bad rest out0 fs gs hs,
      buildKernelPhase k tr pull c.dockerPull c.imageExtract = .ok out0 →
      extractAll c.imageExtract tr pull li = .ok fs →
      bundleAllOnboot c.configToOCI c.imageBundle tr pull 0 ob = .ok gs →
      bundleAllServices c.configToOCI c.imageBundle tr pull pre = .ok hs →
      serviceStep c.configToOCI c.imageBundle tr pull bad = .error err →
      buildInternal ⟨k, li, ob, pre ++ bad :: rest, tr⟩ pull c = .error err) ∧
    (∀ li ob svc out0 fs gs hs,
      buildKernelPhase k tr pull c.dockerPull c.imageExtract = .ok out0 →
      extractAll c.imageExtract tr pull li = .ok fs →
      bundleAllOnboot c.configToOCI c.imageBundle tr pull 0 ob = .ok gs →
      bundleAllServices c.configToOCI c.imageBundle tr pull svc = .ok hs →
      c.filesystem ⟨k, li, ob, svc, tr⟩ = .error err →
      buildInternal ⟨k, li, ob, svc, tr⟩ pull c = .error err) := by
  refine ⟨?_, ?_, ?_, ?_, ?_, ?_, ?_⟩
  · intro li ob svc hor hp
    have hcond : (pull || enforceContentTrust k.Image tr) = true := by
      rcases hor with h | h <;> simp [h]
    have hph : buildKernelPhase k tr pull c.dockerPull c.imageExtract = .error err := by
      simp [buildKernelPhase, hcond, hp]
    simp [buildInternal, hph]
  · intro li ob svc hok hne hext
    have hph : buildKernelPhase k tr pull c.dockerPull c.imageExtract = .error err := by
      rw [buildKernelPhase, hok]
      simp [hne, hext]
    simp [buildInternal, hph]
  · intro li ob svc kentries hok hne hext hun
    have hph : buildKernelPhase k tr pull c.dockerPull c.imageExtract = .error err := by
      rw [buildKernelPhase, hok]
      simp [hne, hext, hun]
    simp [buildInternal, hph]
  · intro pre bad rest ob svc out0 fs hkp hpre hbad
    have hstuck := initLoop_stuck c.imageExtract tr pull bad err rest pre fs out0 hpre hbad
    simp [buildInternal, hkp, hstuck]
  · intro li pre bad rest svc out0 fs gs hkp hinit hpre hbad
    have h1 := initLoop_ok c.imageExtract tr pull li out0 fs hinit
    have hb0 : onbootStep c.configToOCI c.imageBundle tr pull (0 + pre.length) bad
        = .error err := by
      simpa using hbad
    have h2 := onbootLoop_stuckAt c.configToOCI c.imageBundle tr pull bad err rest pre 0 gs
      (out0 ++ fs.flatten) hpre hb0
    simp [buildInternal, hkp, h1, h2]
  · intro li ob pre bad rest out0 fs gs hs hkp hinit hob hpre hbad
    have h1 := initLoop_ok c.imageExtract tr pull li out0 fs hinit
    have h2 := onbootLoop_ok c.configToOCI c.imageBundle tr pull ob 0 (out0 ++ fs.flatten) gs hob
    have h3 := servicesLoop_stuckAt c.configToOCI c.imageBundle tr pull bad err rest pre hs
      (out0 ++ fs.flatten ++ gs.flatten) hpre hbad
    rw [List.append_assoc] at h3
    simp [buildInternal, hkp, h1, h2, h3]
  · intro li ob svc out0 fs gs hs hkp hinit hob hsvc hfs
    have h1 := initLoop_ok c.imageExtract tr pull li out0 fs hinit
    have h2 := onbootLoop_ok c.configToOCI c.imageBundle tr pull ob 0 (out0 ++ fs.flatten) gs hob
    have h3 := servicesLoop_ok c.configToOCI c.imageBundle tr pull svc
      (out0 ++ fs.flatten ++ gs.flatten) hs hsvc
    rw [List.append_assoc] at h3
    simp [buildInternal, hkp, h1, h2, h3, hfs]

/-- C8 witness: seven concrete runs, one per failing step — pull, kernel
extract, splitter (no kernel entry in the extracted stream), `Init`
extract, `Onboot` config, `Services` config, overlay — each aborting with
exactly that step's error while later entries and lists are present and
unused. -/
theorem buildInternal_first_error_wins_run :
    buildInternal ⟨⟨"mykernel".toList, cmdlineEx⟩, [], [], [], ⟨[], []⟩⟩ true collabPullFail
      = .error pullFailMsg ∧
    buildInternal ⟨⟨"mykernel".toList, cmdlineEx⟩, [], [], [], ⟨[], []⟩⟩ true collabExtractFail
      = .error extractFailMsg ∧
    buildInternal ⟨⟨"other".toList, cmdlineEx⟩, [], [], [], ⟨[], []⟩⟩ true collabEx
      = .error missingKernelMsg ∧
    buildInternal ⟨⟨"mykernel".toList, cmdlineEx⟩, ["alpine".toList],
      [⟨"ob".toList, "obimg".toList⟩], [⟨"sv".toList, "svimg".toList⟩], ⟨[], []⟩⟩ true
      collabInitFail = .error extractFailMsg ∧
    buildInternal ⟨⟨[], []⟩, [], [⟨"ob".toList, "obimg".toList⟩],
      [⟨"sv".toList, "svimg".toList⟩], ⟨[], []⟩⟩ false collabBadConfig = .error noConfigMsg ∧
    buildInternal ⟨⟨[], []⟩, [], [], [⟨"sv".toList, "svimg".toList⟩], ⟨[], []⟩⟩ false
      collabBadConfig = .error noConfigMsg ∧
    buildInternal ⟨⟨[], []⟩, [], [], [], ⟨[], []⟩⟩ false collabFsFail = .error fsFailMsg :=
  ⟨(buildInternal_first_error_wins ⟨"mykernel".toList, cmdlineEx⟩ ⟨[], []⟩ true
      collabPullFail pullFailMsg).1 [] [] [] (Or.inl rfl) rfl,
   (buildInternal_first_error_wins ⟨"mykernel".toList, cmdlineEx⟩ ⟨[], []⟩ true
      collabExtractFail extractFailMsg).2.1 [] [] [] rfl (by decide) rfl,
   (buildInternal_first_error_wins ⟨"other".toList, cmdlineEx⟩ ⟨[], []⟩ true
      collabEx missingKernelMsg).2.2.1 [] [] [] initFragEx rfl (by decide) rfl rfl,
   (buildInternal_first_error_wins ⟨"mykernel".toList, cmdlineEx⟩ ⟨[], []⟩ true
      collabInitFail extractFailMsg).2.2.2.1 [] ("alpine".toList) []
      [⟨"ob".toList, "obimg".toList⟩] [⟨"sv".toList, "svimg".toList⟩]
      (bootFragment kernelEntryEx cmdlineEx ++ [rootfsEntryEx]) [] rfl rfl rfl,
   (buildInternal_first_error_wins ⟨[], []⟩ ⟨[], []⟩ false
      collabBadConfig noConfigMsg).2.2.2.2.1 [] [] ⟨"ob".toList, "obimg".toList⟩ []
      [⟨"sv".toList, "svimg".toList⟩] [] [] [] rfl rfl rfl rfl,
   (buildInternal_first_error_wins ⟨[], []⟩ ⟨[], []⟩ false
      collabBadConfig noConfigMsg).2.2.2.2.2.1 [] [] [] ⟨"sv".toList, "svimg".toList⟩ []
      [] [] [] [] rfl rfl rfl rfl rfl,
   (buildInternal_first_error_wins ⟨[], []⟩ ⟨[], []⟩ false
      collabFsFail fsFailMsg).2.2.2.2.2.2 [] [] [] [] [] [] [] rfl rfl rfl rfl rfl⟩

/-- C9 counterexample: with an empty kernel image reference and the pull
flag set, the orchestrator still invokes the kernel pull collaborator — the
pull-policy check runs before the empty-reference check — so the build's
outcome depends on the pull response even though no kernel image is
specified, refuting the claim that no kernel pull occurs. -/
theorem buildInternal_pulls_empty_kernel_cex :
    buildInternal mobyNoKernelEx true collabPullFail = .error pullFailMsg ∧
    buildInternal mobyNoKernelEx true collabEx = .ok overlayFragEx :=
  ⟨rfl, rfl⟩

/-- C9 (amended): the kernel pull is skipped exactly when the pull flag is
unset and the trust policy does not match the kernel image reference; in
particular, for an empty kernel reference with the pull flag unset and a
non-matching trust policy, the build result does not depend on the pull
collaborator at all. -/
theorem buildInternal_no_pull_when_not_required (m : Moby) (c : Collaborators)
    (d : List Char → Bool → Except (List Char) Unit)
    (hk : m.Kernel.Image = [])
    (ht : enforceContentTrust m.Kernel.Image m.Trust = false) :
    buildInternal m false c = buildInternal m false { c with dockerPull := d } := by
  obtain ⟨dp, ext, cfg, bnd, fs⟩ := c
  have hbk : buildKernelPhase m.Kernel m.Trust false dp ext
      = buildKernelPhase m.Kernel m.Trust false d ext := by
    rw [buildKernelPhase, buildKernelPhase, ht]
    simp
  show buildInternal m false ⟨dp, ext, cfg, bnd, fs⟩ = buildInternal m false ⟨d, ext, cfg, bnd, fs⟩
  rw [buildInternal, buildInternal]
  dsimp only
  rw [hbk]

/-- C9 amended witness: a kernel-less specification with empty trust — the
run is unaffected when the pull collaborator is replaced by an
always-failing one. -/
theorem buildInternal_no_pull_when_not_required_run :
    buildInternal mobyNoKernelEx false collabEx =
      buildInternal mobyNoKernelEx false
        { collabEx with dockerPull := fun _ _ => .error pullFailMsg } :=
  buildInternal_no_pull_when_not_required mobyNoKernelEx collabEx
    (fun _ _ => .error pullFailMsg) rfl rfl
